import Mathlib

/-!
# Verification of the TheSnask runtime core (`src/runtime.c`)

Shallow embedding of the Snask runtime's value model, JSON engine, dynamic
dispatch and Blaze routing, together with proofs settling the frozen claims.

Modelling conventions (each noted again at the definition it concerns):
* C `double` payloads are modelled as `ℚ`; `(int)d` casts are the explicit
  truncation-toward-zero `qtrunc`.  IEEE-754 rounding and `NaN` are outside
  the model (the one claim that depends on them is settled separately).
* C heap pointers are modelled by an explicit heap: a list of objects indexed
  by allocation order.  `free` is not modelled (the runtime's tracker never
  reuses or releases addresses during a run), so the heap is append/update
  only, which preserves pointer-identity semantics.
* C strings (`char*`) are Lean `String`s; the spec guarantees they are
  null-free.  Byte counts coincide with character counts on ASCII data.
-/

namespace Snask

/-- The five value tags of the C enum `SnaskType`
    (`SNASK_NIL, SNASK_NUM, SNASK_BOOL, SNASK_STR, SNASK_OBJ`). -/
inductive SnaskTag where
  | nil
  | num
  | bool
  | str
  | obj
  deriving DecidableEq, Repr

/-- The `void* ptr` payload of a `SnaskValue`: either `NULL`, a `char*`
    (modelled by its null-free contents), or a `SnaskObject*` (modelled by its
    heap address). -/
inductive SPtr where
  | null
  | strp (s : String)
  | objp (a : Nat)
  deriving DecidableEq, Repr

/-- The C struct `SnaskValue { double tag; double num; void* ptr; }`.
    The tag is always written from the `SnaskType` enum, so it is modelled by
    `SnaskTag`; `num` (a `double`) is modelled by `ℚ`. -/
structure SnaskValue where
  tag : SnaskTag
  num : ℚ
  ptr : SPtr
  deriving DecidableEq, Repr

/-- C `make_nil`. -/
def make_nil : SnaskValue := ⟨.nil, 0, .null⟩

/-- C `make_bool`. -/
def make_bool (b : Bool) : SnaskValue := ⟨.bool, if b then 1 else 0, .null⟩

/-- C `make_num`. -/
def make_num (n : ℚ) : SnaskValue := ⟨.num, n, .null⟩

/-- C `make_str` on a non-NULL `char*` (the pointer is modelled by its
    contents; `make_str_dup` of a non-NULL argument builds the same value). -/
def make_str (s : String) : SnaskValue := ⟨.str, 0, .strp s⟩

/-- An OBJ-tagged value holding the object at heap address `a`
    (C `make_obj`). -/
def make_obj (a : Nat) : SnaskValue := ⟨.obj, 0, .objp a⟩

/-- The numeric reading of a BOOL payload used by `snask_value_eq_loose`:
    `a->num != 0.0 ? 1.0 : 0.0`. -/
def boolNum (v : SnaskValue) : ℚ := if v.num ≠ 0 then 1 else 0

/-- C `snask_value_eq_loose` (runtime.c:158-184).  The C dispatches on the two
    tags with a chain of `if`s; the chain is rendered as a match on the tag
    pair.  The `!a || !b` guard on the C pointer *arguments* disappears
    because the embedding passes values.  In the STR branch, C compares
    contents with `strcmp` unless a payload pointer is NULL (then it compares
    the pointers); in the OBJ branch it compares the raw pointers.  STR/OBJ
    values whose payload is of the other pointer kind are not constructible by
    the runtime, and are mapped to `false`. -/
def snask_value_eq_loose (a b : SnaskValue) : Bool :=
  match a.tag, b.tag with
  | .nil, tb => decide (SnaskTag.nil = tb)
  | ta, .nil => decide (ta = SnaskTag.nil)
  | .num, .num => decide (a.num = b.num)
  | .num, .bool => decide (a.num = boolNum b)
  | .bool, .num => decide (boolNum a = b.num)
  | .bool, .bool => decide (boolNum a = boolNum b)
  | .str, .str =>
      match a.ptr, b.ptr with
      | .strp s, .strp t => decide (s = t)
      | .null, .null => true
      | _, _ => false
  | .obj, .obj =>
      match a.ptr, b.ptr with
      | .objp x, .objp y => decide (x = y)
      | .null, .null => true
      | _, _ => false
  | _, _ => false

/-- C `s_eq` (runtime.c:186-190): wraps the loose comparison in a BOOL value. -/
def s_eq (a b : SnaskValue) : SnaskValue :=
  ⟨.bool, if snask_value_eq_loose a b then 1 else 0, .null⟩

/-- The C struct `SnaskObject { char** names; SnaskValue* values; int count; }`.
    The model keeps exactly the live region `[0, count)` of the two parallel
    arrays (capacity slack beyond `count` is never read by the runtime), so
    `count` is the length of the lists.  A `NULL` name is `none`. -/
structure SnaskObject where
  names : List (Option String)
  values : List SnaskValue
  deriving DecidableEq, Repr

/-- The `count` field: number of live entries. -/
def SnaskObject.count (o : SnaskObject) : Nat := o.values.length

/-- The C heap of `SnaskObject*` allocations, indexed by allocation order.
    Addresses are never reused (the tracker frees only at process exit). -/
abbrev Heap := List SnaskObject

/-- Allocate a fresh object (C `malloc(sizeof(SnaskObject))` + init),
    returning the extended heap and the new address. -/
def heap_alloc (h : Heap) (o : SnaskObject) : Heap × Nat :=
  (h ++ [o], h.length)

/-- Dereference an OBJ value's pointer.  A dangling or NULL pointer is
    undefined behaviour in C; the model maps it to the empty object. -/
def derefObj (h : Heap) (v : SnaskValue) : SnaskObject :=
  match v.ptr with
  | .objp a => h.getD a ⟨[], []⟩
  | _ => ⟨[], []⟩

/-- The C cast `(int)d` of a double to int: truncation toward zero,
    on the ℚ model of doubles. -/
def qtrunc (q : ℚ) : Int := Int.tdiv q.num (q.den : Int)

/-- C `sjson_new_empty_object_value` (runtime.c:1024-1030), shared by
    `sjson_new_object` and `sjson_new_array`: allocate an object with
    `count = 0` and return an OBJ value holding it. -/
def sjson_new_empty_object_value (h : Heap) : Heap × SnaskValue :=
  let p := heap_alloc h ⟨[], []⟩
  (p.1, ⟨.obj, 0, .objp p.2⟩)

/-- C `sjson_new_array` (runtime.c:1033). -/
def sjson_new_array (h : Heap) : Heap × SnaskValue :=
  sjson_new_empty_object_value h

/-- C `sjson_new_object` (runtime.c:1032). -/
def sjson_new_object (h : Heap) : Heap × SnaskValue :=
  sjson_new_empty_object_value h

/-- C `sjson_arr_get` (runtime.c:1057-1063): NIL unless `arr` is an OBJ with a
    non-NULL pointer and `idx_val` a NUM whose truncation lies in
    `[0, count)`; then the element. -/
def sjson_arr_get (h : Heap) (arr idx_val : SnaskValue) : SnaskValue :=
  if arr.tag ≠ .obj ∨ idx_val.tag ≠ .num ∨ arr.ptr = .null then make_nil
  else
    let o := derefObj h arr
    let idx := qtrunc idx_val.num
    if idx < 0 ∨ (o.count : Int) ≤ idx then make_nil
    else o.values.getD idx.toNat make_nil

/-- C `sjson_arr_set` (runtime.c:1065-1093).  Returns the updated heap and the
    BOOL out-value.  In-range: overwrite the element in place.  Out of range
    (`idx ≥ count`): grow to `idx+1`, filling names of the new slots with
    their decimal indices and values with NIL, then store `value` at `idx`. -/
def sjson_arr_set (h : Heap) (arr idx_val value : SnaskValue) : Heap × SnaskValue :=
  if arr.tag ≠ .obj ∨ idx_val.tag ≠ .num ∨ arr.ptr = .null then (h, make_bool false)
  else
    match arr.ptr with
    | .objp a =>
      let o := h.getD a ⟨[], []⟩
      let idx := qtrunc idx_val.num
      if idx < 0 then (h, make_bool false)
      else if idx < (o.count : Int) then
        (h.set a ⟨o.names, o.values.set idx.toNat value⟩, make_bool true)
      else
        let gap := idx.toNat + 1 - o.count
        let names' := o.names ++ (List.range' o.count gap).map (fun i => some (Nat.repr i))
        let values' := (o.values ++ List.replicate gap make_nil).set idx.toNat value
        (h.set a ⟨names', values'⟩, make_bool true)
    | _ => (h, make_bool false)

/-- C `sjson_arr_push` (runtime.c:1095-1111): append `value` under the decimal
    key equal to the old `count`, growing `count` by one. -/
def sjson_arr_push (h : Heap) (arr value : SnaskValue) : Heap × SnaskValue :=
  if arr.tag ≠ .obj ∨ arr.ptr = .null then (h, make_bool false)
  else
    match arr.ptr with
    | .objp a =>
      let o := h.getD a ⟨[], []⟩
      (h.set a ⟨o.names ++ [some (Nat.repr o.count)], o.values ++ [value]⟩, make_bool true)
    | _ => (h, make_bool false)

/-- C `json_index` (runtime.c:2789-2795): like `sjson_arr_get` but without the
    NULL-pointer guard (a NULL `ptr` under an OBJ tag would be undefined
    behaviour in C; the model dereferences it to the empty object). -/
def json_index (h : Heap) (obj_val idx_val : SnaskValue) : SnaskValue :=
  if obj_val.tag ≠ .obj ∨ idx_val.tag ≠ .num then make_nil
  else
    let o := derefObj h obj_val
    let idx := qtrunc idx_val.num
    if idx < 0 ∨ (o.count : Int) ≤ idx then make_nil
    else o.values.getD idx.toNat make_nil

/-- The linear first-match scan shared verbatim by `blaze_route_lookup`,
    `blaze_obj_lookup` (runtime.c:610-632) and `json_get` (runtime.c:2759):
    walk the parallel arrays in order, skip NULL names, return the first value
    whose name matches the key exactly (`strcmp == 0`).  `none` models
    `*found = false`. -/
def obj_scan : List (Option String) → List SnaskValue → String → Option SnaskValue
  | n :: ns, v :: vs, key => if n = some key then some v else obj_scan ns vs key
  | _, _, _ => none

/-- C `blaze_obj_lookup` (runtime.c:622-632). -/
def blaze_obj_lookup (o : SnaskObject) (key : String) : Option SnaskValue :=
  obj_scan o.names o.values key

/-- C `blaze_route_lookup` (runtime.c:610-620): identical exact-match scan
    over the route table. -/
def blaze_route_lookup (o : SnaskObject) (key : String) : Option SnaskValue :=
  obj_scan o.names o.values key

/-- The invariant of index-keyed array objects: every stored key is the
    decimal rendering of its position, and names and values stay parallel. -/
def ArrInv (o : SnaskObject) : Prop :=
  o.names = (List.range o.values.length).map (fun i => some (Nat.repr i))

/-- C `sjson_is_digits` (runtime.c:1113-1119): non-empty and all characters
    in `'0'..'9'` (`Char.isDigit` is exactly that range test). -/
def sjson_is_digits (s : List Char) : Bool :=
  !s.isEmpty && s.all Char.isDigit

/-- C `atoi` on an all-digits segment: its decimal value.  (`int` overflow on
    absurdly long digit runs is undefined behaviour in C and not modelled.) -/
def digitsToNat (s : List Char) : Nat :=
  s.foldl (fun acc c => acc * 10 + (c.toNat - '0'.toNat)) 0

/-- The `{ok, value, error}` result object built by `sjson_path_get`
    (runtime.c:1141-1188) and `json_parse_ex` (runtime.c:2748-2754): an
    `obj_new(3)` with names `ok`, `value`, `error`. -/
def mk_result_obj (ok : Bool) (v : SnaskValue) (err : String) : SnaskObject :=
  ⟨[some "ok", some "value", some "error"], [make_bool ok, v, make_str err]⟩

/-- The traversal loop of C `sjson_path_get` (runtime.c:1131-1182).  Each
    iteration peels one `.`-separated segment (truncated to 255 characters by
    the C `seg[256]` buffer, while the cursor skips the whole run), requires
    the current value to be an OBJ, and steps either by array index (all-digit
    segment) or by exact key scan.  `fuel` only bounds the recursion; every
    iteration consumes at least one path character, so the fuel supplied by
    `sjson_path_get` is never exhausted (the `0` case is unreachable there). -/
def sjson_path_loop : Nat → Heap → SnaskValue → List Char → Heap × SnaskValue
  | 0, h, _, _ => (h, make_nil)
  | fuel + 1, h, cur, p =>
    if p = [] then
      let al := heap_alloc h (mk_result_obj true cur "")
      (al.1, make_obj al.2)
    else
      let seg : List Char := (p.takeWhile (· ≠ '.')).take 255
      let rest0 := p.dropWhile (· ≠ '.')
      let rest := if rest0.head? = some '.' then rest0.drop 1 else rest0
      if cur.tag ≠ .obj ∨ cur.ptr = .null then
        let al := heap_alloc h (mk_result_obj false make_nil "path_get: alvo não é objeto/array.")
        (al.1, make_obj al.2)
      else if seg = [] then
        let al := heap_alloc h (mk_result_obj false make_nil "path_get: segmento vazio.")
        (al.1, make_obj al.2)
      else
        let o := derefObj h cur
        let next? :=
          if sjson_is_digits seg then
            (if digitsToNat seg < o.count then o.values.get? (digitsToNat seg) else none)
          else obj_scan o.names o.values (String.mk seg)
        match next? with
        | none =>
          let al := heap_alloc h (mk_result_obj false make_nil
              ("path_get: segmento '" ++ String.mk seg ++ "' não encontrado."))
          (al.1, make_obj al.2)
        | some next => sjson_path_loop fuel h next rest

/-- C `sjson_path_get` (runtime.c:1123-1189): NIL unless the path is a proper
    string; otherwise run the traversal loop on the whole path. -/
def sjson_path_get (h : Heap) (root path_val : SnaskValue) : Heap × SnaskValue :=
  match path_val.tag, path_val.ptr with
  | .str, .strp s => sjson_path_loop (s.length + 1) h root s.toList
  | _, _ => (h, make_nil)

/-- Lowercase hex digit, as produced by C `%04x`/`%x` formatting. -/
def hexDigit (n : Nat) : Char :=
  if n < 10 then Char.ofNat ('0'.toNat + n) else Char.ofNat ('a'.toNat + (n - 10))

/-- The `\u00XX` escape `snprintf(tmp, 7, "\\u%04x", ch)` emits for a control
    character `ch < 0x20` (runtime.c:2477-2480). -/
def uEscape (n : Nat) : String :=
  String.mk ['\\', 'u', '0', '0', hexDigit (n / 16), hexDigit (n % 16)]

/-- One character of C `sb_append_json_escaped` (runtime.c:2464-2487).  The C
    walks bytes; bytes ≥ 0x20 other than quote and backslash are passed
    through unchanged, so per-character processing is equivalent on the
    null-free UTF-8 strings the runtime holds. -/
def jsonEscapeChar (c : Char) : String :=
  if c = '"' then "\\\""
  else if c = '\\' then "\\\\"
  else if c = '\x08' then "\\b"
  else if c = '\x0c' then "\\f"
  else if c = '\n' then "\\n"
  else if c = '\r' then "\\r"
  else if c = '\t' then "\\t"
  else if c.toNat < 0x20 then uEscape c.toNat
  else String.mk [c]

/-- C `sb_append_json_escaped`: quote, escaped characters, quote. -/
def json_escaped (s : String) : String :=
  "\"" ++ String.join (s.toList.map jsonEscapeChar) ++ "\""

/-- C `sb_append_indent` (runtime.c:2460-2462): `n` spaces. -/
def sb_spaces (n : Nat) : String := String.mk (List.replicate n ' ')

/-- C `json_stringify_into` together with `json_stringify_object_into`
    (runtime.c:2489-2523).

    * `g` renders a NUM payload: the C uses `snprintf(tmp, 64, "%g", v->num)`.
      Modelled from the spec: "Number renders via a … general float format" —
      IEEE-754 `%g` output is floating-point behaviour outside this embedding,
      so the renderer is kept as a parameter; no claim proved below depends
      on the digits it yields.
    * The object branch dereferences `v->ptr` and emits `{`, the entries in
      array order — `escaped-name ':' value`, with `,` between entries and,
      in pretty mode, the indentation, space and newline bytes the C loop
      interleaves — then `}`.  The per-position comma logic (`i < count-1`)
      is rendered by `String.intercalate` over the entry list.
    * `fuel` bounds recursion depth; C recurses on the value graph directly
      and diverges on cyclic objects, the model instead returns `""` when the
      fuel (always chosen larger than the heap, hence than any acyclic depth)
      runs out. -/
def json_stringify_into (g : ℚ → String) (h : Heap) (pretty : Bool) (indent : Nat) :
    Nat → SnaskValue → Nat → String
  | 0, _, _ => ""
  | fuel + 1, v, level =>
    match v.tag with
    | .num => g v.num
    | .str =>
        match v.ptr with
        | .strp s => json_escaped s
        | _ => json_escaped ""
    | .bool => if v.num ≠ 0 then "true" else "false"
    | .obj =>
        let o := derefObj h v
        let nl := if pretty then "\n" else ""
        let entries := (o.names.zip o.values).map (fun nv =>
          (if pretty then sb_spaces ((level + 1) * indent) else "")
          ++ json_escaped (nv.1.getD "") ++ ":" ++ (if pretty then " " else "")
          ++ json_stringify_into g h pretty indent fuel nv.2 (level + 1))
        "\x7b" ++ (if pretty && o.count ≠ 0 then "\n" else "")
          ++ String.intercalate ("," ++ nl) entries
          ++ (if o.count ≠ 0 then nl else "")
          ++ (if pretty && o.count ≠ 0 then sb_spaces (level * indent) else "")
          ++ "\x7d"
    | .nil => "null"

/-- C `s_json_stringify` / `json_stringify` (runtime.c:2525-2536): compact
    serialization of a value.  The fuel `h.length + 1` exceeds the nesting
    depth of every acyclic value reachable in `h`. -/
def json_stringify (g : ℚ → String) (h : Heap) (v : SnaskValue) : String :=
  json_stringify_into g h false 0 (h.length + 1) v 0

/-- C `json_stringify_pretty` (runtime.c:2538-2545): 2-space indentation. -/
def json_stringify_pretty (g : ℚ → String) (h : Heap) (v : SnaskValue) : String :=
  json_stringify_into g h true 2 (h.length + 1) v 0

/-- The parse errors the C parser stores in `p->err` (each C literal appears
    once in runtime.c:2572-2722 and 2745).  `outOfFuel` is the model's
    recursion bound, unreachable for the fuel the entry points supply (every
    parser step past one fuel unit consumes at least one input character). -/
inductive JsonErr where
  | expectQuote
  | badUniEscape
  | badEscape
  | untermString
  | expectLBrace
  | expectColon
  | expectCommaOrRBrace
  | untermObject
  | expectLBracket
  | expectCommaOrRBracket
  | untermArray
  | badNumber
  | emptyJson
  | unexpectedToken
  | extraContent
  | outOfFuel
  deriving DecidableEq, Repr

/-- The C message literal for each parse error. -/
def JsonErr.msg : JsonErr → String
  | .expectQuote => "Esperado '\"' no início da string JSON."
  | .badUniEscape => "Escape \\u inválido em string JSON."
  | .badEscape => "Escape inválido em string JSON."
  | .untermString => "String JSON não terminada."
  | .expectLBrace => "Esperado '\x7b'."
  | .expectColon => "Esperado ':' após chave do objeto JSON."
  | .expectCommaOrRBrace => "Esperado ',' ou '\x7d' em objeto JSON."
  | .untermObject => "Objeto JSON não terminado."
  | .expectLBracket => "Esperado '['."
  | .expectCommaOrRBracket => "Esperado ',' ou ']' em array JSON."
  | .untermArray => "Array JSON não terminado."
  | .badNumber => "Número JSON inválido."
  | .emptyJson => "JSON vazio."
  | .unexpectedToken => "Token inesperado no JSON."
  | .extraContent => "Conteúdo extra após o JSON."
  | .outOfFuel => "Recursão JSON excedida (limite do modelo)."

/-- C `jp_skip_ws` (runtime.c:2553-2555): drop space, newline, carriage
    return and tab. -/
def jp_skip_ws (s : List Char) : List Char :=
  s.dropWhile (fun c => c = ' ' || c = '\n' || c = '\r' || c = '\t')

/-- C `jp_consume` (runtime.c:2557-2561): skip whitespace, then consume `c`
    if it is next.  The returned list reflects that the C cursor stays past
    the skipped whitespace even when the consume fails. -/
def jp_consume (c : Char) (s : List Char) : Bool × List Char :=
  match jp_skip_ws s with
  | c' :: rest => if c' = c then (true, rest) else (false, c' :: rest)
  | [] => (false, [])

/-- C `jp_match` (runtime.c:2563-2568): skip whitespace, then consume the
    literal if it is a prefix of the remaining input. -/
def jp_match (lit : List Char) (s : List Char) : Bool × List Char :=
  let t := jp_skip_ws s
  if lit.isPrefixOf t then (true, t.drop lit.length) else (false, t)

/-- Hex digit value, as accepted by C `isxdigit` in the `\u` escape. -/
def hexVal (c : Char) : Option Nat :=
  if '0' ≤ c ∧ c ≤ '9' then some (c.toNat - '0'.toNat)
  else if 'a' ≤ c ∧ c ≤ 'f' then some (c.toNat - 'a'.toNat + 10)
  else if 'A' ≤ c ∧ c ≤ 'F' then some (c.toNat - 'A'.toNat + 10)
  else none

/-- The scan loop of C `jp_parse_string` (runtime.c:2578-2614), carrying the
    accumulated output (reversed).  Escapes: the seven single-character ones,
    and `\uXXXX`, kept when `≤ 0x7F` and replaced by `?` otherwise; running
    out of input mid-escape hits the C code's read of the terminating NUL,
    which fails the same escape checks. -/
def jp_parse_string_loop : List Char → List Char → Except JsonErr (String × List Char)
  | _, [] => .error .untermString
  | acc, c :: rest =>
    if c = '"' then .ok (String.mk acc.reverse, rest)
    else if c = '\\' then
      match rest with
      | [] => .error .badEscape
      | e :: rest2 =>
        if e = '"' then jp_parse_string_loop ('"' :: acc) rest2
        else if e = '\\' then jp_parse_string_loop ('\\' :: acc) rest2
        else if e = '/' then jp_parse_string_loop ('/' :: acc) rest2
        else if e = 'b' then jp_parse_string_loop ('\x08' :: acc) rest2
        else if e = 'f' then jp_parse_string_loop ('\x0c' :: acc) rest2
        else if e = 'n' then jp_parse_string_loop ('\n' :: acc) rest2
        else if e = 'r' then jp_parse_string_loop ('\r' :: acc) rest2
        else if e = 't' then jp_parse_string_loop ('\t' :: acc) rest2
        else if e = 'u' then
          match rest2 with
          | h1 :: h2 :: h3 :: h4 :: rest3 =>
            match hexVal h1, hexVal h2, hexVal h3, hexVal h4 with
            | some a, some b, some c2, some d =>
              let code := ((a * 16 + b) * 16 + c2) * 16 + d
              if code ≤ 0x7F then jp_parse_string_loop (Char.ofNat code :: acc) rest3
              else jp_parse_string_loop ('?' :: acc) rest3
            | _, _, _, _ => .error .badUniEscape
          | _ => .error .badUniEscape
        else .error .badEscape
    else jp_parse_string_loop (c :: acc) rest

/-- C `jp_parse_string` (runtime.c:2572-2618): skip whitespace, require the
    opening quote, then scan. -/
def jp_parse_string (s : List Char) : Except JsonErr (String × List Char) :=
  match jp_skip_ws s with
  | '"' :: rest => jp_parse_string_loop [] rest
  | _ => .error .expectQuote

/-- C `jp_parse_number` (runtime.c:2698-2705), i.e. `strtod` on the tail of
    the input followed by an end-pointer check.  The model covers `strtod`'s
    decimal forms exactly — optional sign, integer digits, optional fraction,
    optional exponent consumed only when it has digits — with the exact
    rational value (IEEE-754 rounding of the decimal literal is floating
    point and outside the embedding).  `strtod`'s hexadecimal/inf/nan forms
    are not modelled; none of the claims below depends on them. -/
def jp_parse_number (s : List Char) : Except JsonErr (ℚ × List Char) :=
  let t := jp_skip_ws s
  let signSplit : Int × List Char :=
    match t with
    | '-' :: r => (-1, r)
    | '+' :: r => (1, r)
    | _ => (1, t)
  let sign := signSplit.1
  let t1 := signSplit.2
  let d1 := t1.takeWhile Char.isDigit
  let t2 := t1.drop d1.length
  let fracSplit : List Char × List Char :=
    match t2 with
    | '.' :: r => (r.takeWhile Char.isDigit, r.drop (r.takeWhile Char.isDigit).length)
    | _ => ([], t2)
  let d2 := fracSplit.1
  let t3 := fracSplit.2
  if d1.isEmpty ∧ d2.isEmpty then
    .error .badNumber
  else
    let expSplit : Int × List Char :=
      match t3 with
      | e :: r =>
        if e = 'e' ∨ e = 'E' then
          let esignSplit : Int × List Char :=
            match r with
            | '-' :: rr => (-1, rr)
            | '+' :: rr => (1, rr)
            | _ => (1, r)
          let d3 := esignSplit.2.takeWhile Char.isDigit
          if d3.isEmpty then (0, t3)
          else (esignSplit.1 * (digitsToNat d3 : Int), esignSplit.2.drop d3.length)
        else (0, t3)
      | [] => (0, t3)
    let exp := expSplit.1
    let mantNum : Int := sign * ((digitsToNat d1 * 10 ^ d2.length + digitsToNat d2 : Nat) : Int)
    let q : ℚ :=
      if 0 ≤ exp then mkRat (mantNum * ((10 ^ exp.toNat : Nat) : Int)) (10 ^ d2.length)
      else mkRat mantNum (10 ^ d2.length * 10 ^ (-exp).toNat)
    .ok (q, expSplit.2)

/-- The mode of one `jp_run` step: C's mutually recursive `jp_parse_value`
    (runtime.c:2707-2724), the member loop of `jp_parse_object`
    (runtime.c:2659-2669) and the element loop of `jp_parse_array`
    (runtime.c:2683-2692, with its running index `len`). -/
inductive JPMode where
  | value
  | objLoop (addr : Nat)
  | arrLoop (addr : Nat) (len : Nat)
  deriving DecidableEq, Repr

/-- The C recursive-descent JSON parser (runtime.c:2651-2724) as one
    fuel-indexed function; one fuel unit is spent per C-level recursive call
    or loop iteration, each of which consumes at least one input character,
    so the fuel supplied by the entry points (`2·length + 4`) is never
    exhausted.  In `value` mode the `{`/`[` branches inline the headers of
    C `jp_parse_object`/`jp_parse_array` (consume the opening bracket,
    `obj_new(0)`, the early close check) and continue in the corresponding
    loop mode.  The loops mirror the C exactly: `while (p->s[p->i])` is the
    non-emptiness test, member/element parse, `obj_push` (an in-place append
    to the object under construction, the array loop naming elements by
    their decimal index), then close-or-comma.  Error returns carry the heap
    as is: the C `free`s of the partially built object release memory but
    never reuse an address mid-run. -/
def jp_run : Nat → JPMode → Heap → List Char → Heap × Except JsonErr (SnaskValue × List Char)
  | 0, _, h, _ => (h, .error .outOfFuel)
  | fuel + 1, mode, h, s =>
    match mode with
    | .value =>
      let t := jp_skip_ws s
      match t with
      | [] => (h, .error .emptyJson)
      | c :: _ =>
        if c = '"' then
          match jp_parse_string t with
          | .error e => (h, .error e)
          | .ok (str, rest) => (h, .ok (make_str str, rest))
        else if c = '{' then
          let c1 := jp_consume '{' t
          let al := heap_alloc h ⟨[], []⟩
          let c2 := jp_consume '}' (jp_skip_ws c1.2)
          if c2.1 then (al.1, .ok (make_obj al.2, c2.2))
          else jp_run fuel (.objLoop al.2) al.1 c2.2
        else if c = '[' then
          let c1 := jp_consume '[' t
          let al := heap_alloc h ⟨[], []⟩
          let c2 := jp_consume ']' (jp_skip_ws c1.2)
          if c2.1 then (al.1, .ok (make_obj al.2, c2.2))
          else jp_run fuel (.arrLoop al.2 0) al.1 c2.2
        else
          let mn := jp_match ['n', 'u', 'l', 'l'] t
          if mn.1 then (h, .ok (make_nil, mn.2))
          else
            let mt := jp_match ['t', 'r', 'u', 'e'] t
            if mt.1 then (h, .ok (make_bool true, mt.2))
            else
              let mf := jp_match ['f', 'a', 'l', 's', 'e'] t
              if mf.1 then (h, .ok (make_bool false, mf.2))
              else if c = '-' ∨ ('0' ≤ c ∧ c ≤ '9') then
                match jp_parse_number t with
                | .error e => (h, .error e)
                | .ok (q, rest) => (h, .ok (make_num q, rest))
              else (h, .error .unexpectedToken)
    | .objLoop addr =>
      if s.isEmpty then (h, .error .untermObject)
      else
        match jp_parse_string s with
        | .error e => (h, .error e)
        | .ok (key, s1) =>
          let c1 := jp_consume ':' s1
          if ¬c1.1 then (h, .error .expectColon)
          else
            match jp_run fuel .value h c1.2 with
            | (h1, .error e) => (h1, .error e)
            | (h1, .ok (val, s2)) =>
              let o := h1.getD addr ⟨[], []⟩
              let h2 := h1.set addr ⟨o.names ++ [some key], o.values ++ [val]⟩
              let c2 := jp_consume '}' (jp_skip_ws s2)
              if c2.1 then (h2, .ok (make_obj addr, c2.2))
              else
                let c3 := jp_consume ',' c2.2
                if c3.1 then jp_run fuel (.objLoop addr) h2 c3.2
                else (h2, .error .expectCommaOrRBrace)
    | .arrLoop addr len =>
      if s.isEmpty then (h, .error .untermArray)
      else
        match jp_run fuel .value h s with
        | (h1, .error e) => (h1, .error e)
        | (h1, .ok (val, s1)) =>
          let o := h1.getD addr ⟨[], []⟩
          let h2 := h1.set addr ⟨o.names ++ [some (Nat.repr len)], o.values ++ [val]⟩
          let c2 := jp_consume ']' (jp_skip_ws s1)
          if c2.1 then (h2, .ok (make_obj addr, c2.2))
          else
            let c3 := jp_consume ',' c2.2
            if c3.1 then jp_run fuel (.arrLoop addr (len + 1)) h2 c3.2
            else (h2, .error .expectCommaOrRBracket)

/-- C `jp_parse_value` (runtime.c:2707-2724) from a given tail of input. -/
def jp_parse_value (fuel : Nat) (h : Heap) (s : List Char) :
    Heap × Except JsonErr (SnaskValue × List Char) :=
  jp_run fuel .value h s

/-- C `json_parse` (runtime.c:2726-2734): the silent entry point — NIL unless
    the argument is a proper string that parses with no trailing content
    (after whitespace). -/
def json_parse (h : Heap) (data : SnaskValue) : Heap × SnaskValue :=
  match data.tag, data.ptr with
  | .str, .strp str =>
    let r := jp_run (2 * str.length + 4) .value h str.toList
    match r.2 with
    | .error _ => (r.1, make_nil)
    | .ok (v, rest) =>
      if (jp_skip_ws rest).isEmpty then (r.1, v) else (r.1, make_nil)
  | _, _ => (h, make_nil)

/-- Modelled from the spec: "the runtime looks up a process-global symbol
    named by prefixing it (e.g., `f_foo`) in the running program's symbol
    table" — the symbol table consulted by `dlsym(NULL, sym)` and the
    script-compiled handler functions it contains are external to this
    repository (the compiler producing them is out of scope), so they are a
    parameter: a partial map from symbol name to a function from the argument
    list to the out-value `ra` (pre-set to NIL by the caller, overwritten by
    the callee).  Callee side effects on the allocation tracker are not
    modelled. -/
abbrev SymTab : Type := String → Option (List SnaskValue → SnaskValue)

/-- `snprintf(buf, cap, …)` truncation: at most `cap − 1` bytes are kept
    (character-for-byte on ASCII data). -/
def snprintf_trunc (cap : Nat) (s : String) : String :=
  String.mk (s.toList.take (cap - 1))

/-- C `blaze_call_snask_handler` (runtime.c:720-739): format `f_<name>` into
    the 512-byte `sym` buffer (truncating), resolve it, return NIL when the
    symbol is absent, otherwise call it with the five request strings. -/
def blaze_call_snask_handler (st : SymTab)
    (handler_name method path query body cookie : String) : SnaskValue :=
  let sym := snprintf_trunc 512 ("f_" ++ handler_name)
  match st sym with
  | none => make_nil
  | some f => f [make_str method, make_str path, make_str query, make_str body, make_str cookie]

/-- C `snask_thread_entry` (runtime.c:1480-1494): the same `f_` lookup from a
    spawned thread, with one string argument.  The C function always returns
    NULL and discards the out-value `ra`; the model exposes the dispatched
    value, which is NIL exactly on the no-call path (absent symbol). -/
def snask_thread_entry (st : SymTab) (fn_name arg : String) : SnaskValue :=
  let sym := snprintf_trunc 512 ("f_" ++ fn_name)
  match st sym with
  | none => make_nil
  | some f => f [make_str arg]

/-- C `blaze_find_method` (runtime.c:568-576): prefix match on the five
    supported request methods. -/
def blaze_find_method (req : List Char) : Option String :=
  if ("GET ".toList).isPrefixOf req then some "GET"
  else if ("POST ".toList).isPrefixOf req then some "POST"
  else if ("PUT ".toList).isPrefixOf req then some "PUT"
  else if ("PATCH ".toList).isPrefixOf req then some "PATCH"
  else if ("DELETE ".toList).isPrefixOf req then some "DELETE"
  else none

/-- C `blaze_parse_path` (runtime.c:578-594): require a known method, take
    the request target between the first and second spaces (truncated to the
    1024-byte buffer), and cut the query string off at `?`. -/
def blaze_parse_path (req : List Char) : Option String :=
  match blaze_find_method req with
  | none => none
  | some _ =>
    match req.dropWhile (· ≠ ' ') with
    | [] => none
    | _ :: pTail =>
      if pTail.dropWhile (· ≠ ' ') = [] then none
      else some (String.mk (((pTail.takeWhile (· ≠ ' ')).take 1023).takeWhile (· ≠ '?')))

/-- C `blaze_parse_target_raw` (runtime.c:596-608): the raw request target
    between the first and second spaces (2048-byte buffer), query included. -/
def blaze_parse_target_raw (req : List Char) : Option (List Char) :=
  match req.dropWhile (· ≠ ' ') with
  | [] => none
  | _ :: pTail =>
    if pTail.dropWhile (· ≠ ' ') = [] then none
    else some ((pTail.takeWhile (· ≠ ' ')).take 2047)

/-- C `blaze_extract_query` (runtime.c:768-774): the part of the target after
    `?`, or `""`. -/
def blaze_extract_query (req : List Char) : String :=
  match blaze_parse_target_raw req with
  | none => ""
  | some target =>
    match target.dropWhile (· ≠ '?') with
    | [] => ""
    | _ :: q => String.mk q

/-- C `blaze_extract_path_only` (runtime.c:776-782): the target cut at `?`,
    or `"/"` when the request line is unparseable. -/
def blaze_extract_path_only (req : List Char) : String :=
  match blaze_parse_target_raw req with
  | none => "/"
  | some target => String.mk (target.takeWhile (· ≠ '?'))

/-- ASCII `tolower`, as used by C `strncasecmp`. -/
def asciiLower (c : Char) : Char :=
  if 'A' ≤ c ∧ c ≤ 'Z' then Char.ofNat (c.toNat + 32) else c

/-- Index of the first occurrence of `pat` in `s` (C `strstr`). -/
def find_sub (pat : List Char) : List Char → Option Nat
  | [] => if pat.isEmpty then some 0 else none
  | s@(_ :: tail) =>
    if pat.isPrefixOf s then some 0 else (find_sub pat tail).map (· + 1)

/-- The header scan loop of C `blaze_find_header` (runtime.c:747-758): at each
    line start, stop at a missing or empty line, return the text after
    `key:` (leading spaces skipped, running to the end of the request —
    callers cut it) on a case-insensitive match, else advance past the line.
    The fuel supplied by `blaze_find_header` exceeds the number of
    iterations (each one drops at least three characters). -/
def blaze_find_header_loop (key : List Char) : Nat → List Char → Option (List Char)
  | 0, _ => none
  | fuel + 1, p =>
    match find_sub ['\r', '\n'] p with
    | none => none
    | some 0 => none
    | some (i + 1) =>
      if (p.take key.length).map asciiLower = key.map asciiLower
          ∧ p.getD key.length ' ' = ':' then
        some ((p.drop (key.length + 1)).dropWhile (· = ' '))
      else blaze_find_header_loop key fuel (p.drop (i + 1 + 2))

/-- C `blaze_find_header` (runtime.c:741-760): skip the request line, then
    scan header lines for `key:`. -/
def blaze_find_header (req : List Char) (key : String) : Option (List Char) :=
  match find_sub ['\r', '\n'] req with
  | none => none
  | some i =>
    let headers := req.drop (i + 2)
    blaze_find_header_loop key.toList (headers.length + 1) headers

/-- C `atoi`: optional whitespace, optional sign, leading digits. -/
def atoiInt (s : List Char) : Int :=
  let t := s.dropWhile (fun c =>
    c = ' ' || c = '\t' || c = '\n' || c = '\x0b' || c = '\x0c' || c = '\r')
  match t with
  | '-' :: r => -(digitsToNat (r.takeWhile Char.isDigit) : Int)
  | '+' :: r => (digitsToNat (r.takeWhile Char.isDigit) : Int)
  | _ => (digitsToNat (t.takeWhile Char.isDigit) : Int)

/-- C `blaze_parse_content_length` (runtime.c:762-766). -/
def blaze_parse_content_length (req : List Char) : Int :=
  match blaze_find_header req "Content-Length" with
  | none => 0
  | some v => atoiInt v

/-- C `blaze_extract_cookie_header` (runtime.c:784-796): the `Cookie` header
    value up to the end of its line, or `""`. -/
def blaze_extract_cookie_header (req : List Char) : String :=
  match blaze_find_header req "Cookie" with
  | none => ""
  | some v =>
    match find_sub ['\r', '\n'] v with
    | none => String.mk v
    | some i => String.mk (v.take i)

/-- The response the server writes back: status, `Content-Type`, any extra
    header lines (`Location`, the route's `header`, `Set-Cookie`), body.
    The literal `HTTP/1.1 <status> <reason>` header block built around these
    by `blaze_send_response*` (runtime.c:645-711) is byte formatting of
    exactly these fields. -/
structure BlazeResponse where
  status : Int
  contentType : String
  extra : String
  body : String
  deriving DecidableEq, Repr

/-- C `blaze_send_response` (runtime.c:645-666). -/
def blaze_send_response (status : Int) (ct body : String) : BlazeResponse :=
  ⟨status, ct, "", body⟩

/-- C `blaze_send_response_extra` (runtime.c:668-696). -/
def blaze_send_response_extra (status : Int) (ct extra body : String) : BlazeResponse :=
  ⟨status, ct, extra, body⟩

/-- C `blaze_send_response_headers` (runtime.c:698-711): assemble the extra
    block from the optional raw header line and `Set-Cookie` value.  (The C
    `strncat` bounds of 1024 bytes are reachable only with a near-kilobyte
    header value and are not modelled.) -/
def blaze_send_response_headers (status : Int) (ct : String)
    (header_line cookie_line : Option String) (body : String) : BlazeResponse :=
  let e1 := match header_line with
    | some hl => if hl ≠ "" then hl ++ "\r\n" else ""
    | none => ""
  let e2 := match cookie_line with
    | some cl => if cl ≠ "" then "Set-Cookie: " ++ cl ++ "\r\n" else ""
    | none => ""
  ⟨status, ct, e1 ++ e2, body⟩

/-- `has_x && (int)xv.tag == SNASK_STR ? (char*)xv.ptr : NULL` — the string
    content of an optional looked-up field. -/
def strContent (ov : Option SnaskValue) : Option String :=
  match ov with
  | some sv =>
    match sv.tag, sv.ptr with
    | .str, .strp s => some s
    | _, _ => none
  | none => none

/-- One request handled by the C `blaze_run` accept loop (runtime.c:829-954),
    from the received request text to the response written back.  Socket
    accept/read/write and the `Content-Length`-driven re-read loop are I/O
    outside the model: `req` is the request text available to the handler
    logic (a truncated read simply yields a shorter `req`).  Steps, in C
    order: extract the body (`Content-Length` bytes after the blank line),
    parse the request line (failure → 400), probe the route table first with
    `"METHOD /path"` then with the bare path (both misses → 404), run the
    `{handler: name}` indirection through dynamic dispatch, then build the
    response by the redirect / string-body / json / fallback-object chain,
    or verbatim `text/plain` for a plain string route, or stringified JSON
    for anything else. -/
def blaze_handle_request (g : ℚ → String) (st : SymTab) (h : Heap)
    (routesAddr : Nat) (req : String) : Heap × BlazeResponse :=
  let reqL := req.toList
  let content_len := blaze_parse_content_length reqL
  let body : String :=
    match find_sub ['\r', '\n', '\r', '\n'] reqL with
    | none => ""
    | some i =>
      if 0 < content_len then String.mk ((reqL.drop (i + 4)).take content_len.toNat)
      else ""
  let routes := h.getD routesAddr ⟨[], []⟩
  match blaze_parse_path reqL with
  | none => (h, blaze_send_response 400 "text/plain; charset=utf-8" "Bad Request")
  | some path_key =>
    let method := blaze_find_method reqL
    let v0 : Option SnaskValue :=
      match method with
      | some m => blaze_route_lookup routes (m ++ " " ++ path_key)
      | none => none
    let v1 : Option SnaskValue :=
      match v0 with
      | some v => some v
      | none => blaze_route_lookup routes path_key
    match v1 with
    | none => (h, blaze_send_response 404 "text/plain; charset=utf-8" "Not Found")
    | some v =>
      let v2 : SnaskValue :=
        if v.tag = .obj then
          match strContent (blaze_obj_lookup (derefObj h v) "handler") with
          | some hname =>
            blaze_call_snask_handler st hname (method.getD "GET")
              (blaze_extract_path_only reqL) (blaze_extract_query reqL) body
              (blaze_extract_cookie_header reqL)
          | none => v
        else v
      if v2.tag = .obj then
        let resp := derefObj h v2
        let json_v := blaze_obj_lookup resp "json"
        let status : Int :=
          match blaze_obj_lookup resp "status" with
          | some sv => if sv.tag = .num then qtrunc sv.num else 200
          | none => 200
        let ct := strContent (blaze_obj_lookup resp "content_type")
        let header_line := strContent (blaze_obj_lookup resp "header")
        let cookie_line := strContent (blaze_obj_lookup resp "cookie")
        match strContent (blaze_obj_lookup resp "redirect") with
        | some loc =>
          let extra := "Location: " ++ loc ++ "\r\n"
            ++ (match header_line with
                | some hl => if hl ≠ "" then hl ++ "\r\n" else ""
                | none => "")
            ++ (match cookie_line with
                | some cl => if cl ≠ "" then "Set-Cookie: " ++ cl ++ "\r\n" else ""
                | none => "")
          (h, blaze_send_response_extra (if status = 0 then 302 else status)
            (ct.getD "text/plain; charset=utf-8") extra "")
        | none =>
          match strContent (blaze_obj_lookup resp "body") with
          | some bodystr =>
            (h, blaze_send_response_headers status (ct.getD "text/plain; charset=utf-8")
              header_line cookie_line bodystr)
          | none =>
            match json_v with
            | some jv =>
              (h, blaze_send_response_headers status
                (ct.getD "application/json; charset=utf-8") header_line cookie_line
                (json_stringify g h jv))
            | none =>
              (h, blaze_send_response_headers status
                (ct.getD "application/json; charset=utf-8") header_line cookie_line
                (json_stringify g h v2))
      else if v2.tag = .str then
        match v2.ptr with
        | .strp sbody => (h, blaze_send_response 200 "text/plain; charset=utf-8" sbody)
        | _ => (h, blaze_send_response 200 "text/plain; charset=utf-8" "")
      else (h, blaze_send_response 200 "application/json; charset=utf-8"
        (json_stringify g h v2))

/-- C `json_parse_ex` (runtime.c:2737-2757): the explicit entry point —
    allocates and returns an `{ok, value, error}` object; trailing content
    is the extra error case. -/
def json_parse_ex (h : Heap) (data : SnaskValue) : Heap × SnaskValue :=
  match data.tag, data.ptr with
  | .str, .strp str =>
    let r := jp_run (2 * str.length + 4) .value h str.toList
    match r.2 with
    | .error e =>
      let al := heap_alloc r.1 (mk_result_obj false make_nil e.msg)
      (al.1, make_obj al.2)
    | .ok (v, rest) =>
      if (jp_skip_ws rest).isEmpty then
        let al := heap_alloc r.1 (mk_result_obj true v "")
        (al.1, make_obj al.2)
      else
        let al := heap_alloc r.1 (mk_result_obj false make_nil JsonErr.extraContent.msg)
        (al.1, make_obj al.2)
  | _, _ => (h, make_nil)

end Snask

namespace Snask

theorem boolNum_make_bool (b : Bool) : boolNum (make_bool b) = if b then 1 else 0 := by
  cases b <;> simp [boolNum, make_bool]

/-- Loose equality is symmetric (helper, shared). -/
theorem snask_value_eq_loose_symm (a b : SnaskValue) :
    snask_value_eq_loose a b = snask_value_eq_loose b a := by
  obtain ⟨ta, na, pa⟩ := a
  obtain ⟨tb, nb, pb⟩ := b
  cases ta <;> cases tb <;>
    simp only [snask_value_eq_loose, decide_eq_decide] <;>
    try exact eq_comm
  · cases pa <;> cases pb <;> simp [decide_eq_decide, eq_comm]
  · cases pa <;> cases pb <;> simp [decide_eq_decide, eq_comm]

/-- C2: loose equality (`snask_value_eq_loose` / `s_eq`) is total over all
    five tag pairs (it always yields a BOOL-tagged 0/1 value through `s_eq`),
    `Number(1)` equals `Bool(true)`, `Nil` is equal exactly to NIL-tagged
    values, `String("1")` does not equal `Number(1)`, OBJ values compare by
    reference (heap address) identity, and the relation is symmetric. -/
theorem claim_C2_loose_equality :
    (snask_value_eq_loose (make_num 1) (make_bool true) = true)
    ∧ (∀ v : SnaskValue, snask_value_eq_loose make_nil v = true ↔ v.tag = .nil)
    ∧ (snask_value_eq_loose (make_str "1") (make_num 1) = false)
    ∧ (∀ (x y : SnaskValue) (a b : Nat), x.tag = .obj → x.ptr = .objp a →
        y.tag = .obj → y.ptr = .objp b →
        (snask_value_eq_loose x y = true ↔ a = b))
    ∧ (∀ a b : SnaskValue, snask_value_eq_loose a b = snask_value_eq_loose b a)
    ∧ (∀ a b : SnaskValue, (s_eq a b).tag = .bool ∧
        ((s_eq a b).num = 1 ∨ (s_eq a b).num = 0)) := by
  refine ⟨by decide, ?_, by decide, ?_, snask_value_eq_loose_symm, ?_⟩
  · intro v
    obtain ⟨tv, nv, pv⟩ := v
    cases tv <;> simp [snask_value_eq_loose, make_nil]
  · intro x y a b hxt hxp hyt hyp
    obtain ⟨tx, nx, px⟩ := x
    obtain ⟨ty, ny, py⟩ := y
    simp only at hxt hxp hyt hyp
    subst hxt hxp hyt hyp
    simp [snask_value_eq_loose]
  · intro a b
    unfold s_eq
    dsimp only
    refine ⟨rfl, ?_⟩
    by_cases h : snask_value_eq_loose a b = true <;> simp [h]

/-- Witness for C2: the object-identity conjunct applied at two concrete
    OBJ values with distinct heap addresses. -/
theorem claim_C2_loose_equality_witness :
    snask_value_eq_loose (make_obj 0) (make_obj 1) = true ↔ (0 : Nat) = 1 :=
  claim_C2_loose_equality.2.2.2.1 (make_obj 0) (make_obj 1) 0 1 rfl rfl rfl rfl

theorem list_set_append_right {α : Type} (l r : List α) (k : Nat) (v : α) :
    (l ++ r).set (l.length + k) v = l ++ r.set k v := by
  induction l with
  | nil => simp
  | cons a t ih =>
      have h : (a :: t).length + k = (t.length + k) + 1 := by
        simp [List.length_cons]
        omega
      rw [List.cons_append, h, List.set_cons_succ, ih, List.cons_append]

theorem replicate_set_last {α : Type} (g : Nat) (hg : 1 ≤ g) (x v : α) :
    (List.replicate g x).set (g - 1) v = List.replicate (g - 1) x ++ [v] := by
  obtain ⟨g', rfl⟩ : ∃ g', g = g' + 1 := ⟨g - 1, by omega⟩
  rw [List.replicate_succ' g' x]
  have h0 : (List.replicate g' x).length + 0 = g' + 1 - 1 := by simp
  rw [← h0, list_set_append_right]
  simp

theorem set_append_replicate_succ {α : Type} (l : List α) (n k : Nat) (x v : α)
    (hk : k = l.length + n) :
    (l ++ List.replicate (n + 1) x).set k v = (l ++ List.replicate n x) ++ [v] := by
  subst hk
  rw [list_set_append_right]
  have h := replicate_set_last (n + 1) (by omega) x v
  simp only [Nat.add_sub_cancel] at h
  rw [h]
  exact (List.append_assoc l (List.replicate n x) [v]).symm

/-- C4: `sjson_arr_set` on a fresh empty array at index 2 with `"x"` yields
    count 3 with NIL at 0 and 1 and `"x"` at 2; in general, setting at any
    index at or past `count` fills the gap with NIL values (and decimal index
    names) up to and including that index. -/
theorem claim_C4_arr_set_gap_fill :
    (sjson_arr_set (sjson_new_array []).1 (sjson_new_array []).2
        (make_num 2) (make_str "x")
      = ([⟨[some "0", some "1", some "2"],
           [make_nil, make_nil, make_str "x"]⟩], make_bool true))
    ∧ ∀ (h : Heap) (a : Nat) (idxv v : SnaskValue),
        idxv.tag = .num →
        ((h.getD a ⟨[], []⟩).count : Int) ≤ qtrunc idxv.num →
        sjson_arr_set h (make_obj a) idxv v =
          (h.set a
            ⟨(h.getD a ⟨[], []⟩).names ++
               (List.range' (h.getD a ⟨[], []⟩).count
                 ((qtrunc idxv.num).toNat - (h.getD a ⟨[], []⟩).count + 1)).map
                 (fun i => some (Nat.repr i)),
             ((h.getD a ⟨[], []⟩).values ++
               List.replicate ((qtrunc idxv.num).toNat - (h.getD a ⟨[], []⟩).count) make_nil)
               ++ [v]⟩,
           make_bool true) := by
  constructor
  · decide
  · intro h a idxv v htag hle
    have hnonneg : 0 ≤ qtrunc idxv.num := le_trans (by positivity) hle
    have hcount : (h.getD a ⟨[], []⟩).count ≤ (qtrunc idxv.num).toNat := by omega
    unfold sjson_arr_set
    rw [if_neg (by simp [make_obj, htag])]
    dsimp only [make_obj]
    rw [if_neg (by omega), if_neg (by omega)]
    rw [show (qtrunc idxv.num).toNat + 1 - (h.getD a ⟨[], []⟩).count
        = ((qtrunc idxv.num).toNat - (h.getD a ⟨[], []⟩).count) + 1 from by omega]
    rw [set_append_replicate_succ _ _ _ _ _ (by
      have h2 : (h.getD a ⟨[], []⟩).count = (h.getD a ⟨[], []⟩).values.length := rfl
      omega)]

/-- Witness for C4: the general gap-fill conjunct applied to the singleton
    heap holding a fresh empty object. -/
theorem claim_C4_arr_set_gap_fill_witness :
    sjson_arr_set [(⟨[], []⟩ : SnaskObject)] (make_obj 0) (make_num 2) (make_str "x")
      = ([⟨[some "0", some "1", some "2"],
           [make_nil, make_nil, make_str "x"]⟩], make_bool true) := by
  have := claim_C4_arr_set_gap_fill.2 [(⟨[], []⟩ : SnaskObject)] 0
    (make_num 2) (make_str "x") rfl (by decide)
  simpa using this

/-- C9: for a NUM index that truncates to a negative or out-of-range int, the
    reads `sjson_arr_get` and `json_index` return NIL, and the write
    `sjson_arr_set` with a negative index returns false and leaves the heap
    unchanged; no backing-array element outside `[0, count)` is read in any
    of these cases (in the model, all element accesses are guarded by the
    same bounds test). -/
theorem claim_C9_out_of_range_indices :
    ∀ (h : Heap) (arr idxv v : SnaskValue) (a : Nat),
      arr.tag = .obj → arr.ptr = .objp a → idxv.tag = .num →
      ((qtrunc idxv.num < 0 ∨ ((h.getD a ⟨[], []⟩).count : Int) ≤ qtrunc idxv.num) →
        sjson_arr_get h arr idxv = make_nil ∧ json_index h arr idxv = make_nil)
      ∧ (qtrunc idxv.num < 0 → sjson_arr_set h arr idxv v = (h, make_bool false)) := by
  intro h arr idxv v a htag hptr hidx
  obtain ⟨ta, na, pa⟩ := arr
  simp only at htag hptr
  subst htag hptr
  constructor
  · intro hrange
    constructor
    · unfold sjson_arr_get
      rw [if_neg (by simp [hidx])]
      simp only [derefObj]
      rw [if_pos hrange]
    · unfold json_index
      rw [if_neg (by simp [hidx])]
      simp only [derefObj]
      rw [if_pos hrange]
  · intro hneg
    unfold sjson_arr_set
    rw [if_neg (by simp [hidx])]
    simp only
    rw [if_pos hneg]

/-- Witness for C9: index −1 on a one-element array. -/
theorem claim_C9_out_of_range_indices_witness :
    (sjson_arr_get [(⟨[some "0"], [make_num 7]⟩ : SnaskObject)] (make_obj 0) (make_num (-1))
        = make_nil
      ∧ json_index [(⟨[some "0"], [make_num 7]⟩ : SnaskObject)] (make_obj 0) (make_num (-1))
        = make_nil)
    ∧ sjson_arr_set [(⟨[some "0"], [make_num 7]⟩ : SnaskObject)] (make_obj 0)
        (make_num (-1)) (make_str "x")
        = ([(⟨[some "0"], [make_num 7]⟩ : SnaskObject)], make_bool false) := by
  have := claim_C9_out_of_range_indices [(⟨[some "0"], [make_num 7]⟩ : SnaskObject)]
    (make_obj 0) (make_num (-1)) (make_str "x") 0 rfl rfl rfl
  exact ⟨this.1 (by decide), this.2 (by decide)⟩

/-- C3: on the object `{"a":{"b":[10,20,30]}}` (array `[10,20,30]` at heap
    address 0, `{"b":…}` at 1, the root at 2), `sjson_path_get` with path
    `"a.b.1"` allocates and returns a 3-field `{ok,value,error}` object with
    `ok = true`, value loosely equal to `Number 20` and the empty error
    string; with path `"a.x"` it returns `ok = false`, value NIL and an error
    string naming the failing segment `"x"`.  The digit segment `"1"` is
    taken as an array index, the others as keys. -/
theorem claim_C3_path_get :
    (sjson_path_get
        [⟨[some "0", some "1", some "2"], [make_num 10, make_num 20, make_num 30]⟩,
         ⟨[some "b"], [make_obj 0]⟩,
         ⟨[some "a"], [make_obj 1]⟩]
        (make_obj 2) (make_str "a.b.1")
      = ([⟨[some "0", some "1", some "2"], [make_num 10, make_num 20, make_num 30]⟩,
          ⟨[some "b"], [make_obj 0]⟩,
          ⟨[some "a"], [make_obj 1]⟩,
          mk_result_obj true (make_num 20) ""], make_obj 3))
    ∧ (snask_value_eq_loose ((mk_result_obj true (make_num 20) "").values.getD 1 make_nil)
        (make_num 20) = true)
    ∧ ((mk_result_obj true (make_num 20) "").names = [some "ok", some "value", some "error"])
    ∧ (sjson_path_get
        [⟨[some "0", some "1", some "2"], [make_num 10, make_num 20, make_num 30]⟩,
         ⟨[some "b"], [make_obj 0]⟩,
         ⟨[some "a"], [make_obj 1]⟩]
        (make_obj 2) (make_str "a.x")
      = ([⟨[some "0", some "1", some "2"], [make_num 10, make_num 20, make_num 30]⟩,
          ⟨[some "b"], [make_obj 0]⟩,
          ⟨[some "a"], [make_obj 1]⟩,
          mk_result_obj false make_nil "path_get: segmento 'x' não encontrado."], make_obj 3)) := by
  refine ⟨by decide, by decide, by decide, by decide⟩

/-- C8: the serializer renders every OBJ value as a JSON *object*: `{`, the
    key/value pairs in insertion order (the order of the parallel arrays),
    `}` — never as a JSON array, even when the keys are the decimal strings
    `"0"`, `"1"`, …  (second conjunct: a decimal-keyed object still prints
    with braces and explicit keys). -/
theorem claim_C8_object_serialization :
    (∀ (g : ℚ → String) (h : Heap) (a fuel level : Nat) (o : SnaskObject),
      h.getD a ⟨[], []⟩ = o →
      json_stringify_into g h false 0 (fuel + 1) (make_obj a) level
        = "\x7b" ++ String.intercalate ","
            ((o.names.zip o.values).map fun nv =>
              json_escaped (nv.1.getD "") ++ ":"
                ++ json_stringify_into g h false 0 fuel nv.2 (level + 1))
          ++ "\x7d")
    ∧ (∀ (g : ℚ → String),
        json_stringify g [⟨[some "0", some "1"], [make_bool true, make_nil]⟩] (make_obj 0)
          = "\x7b\"0\":true,\"1\":null\x7d") := by
  constructor
  · intro g h a fuel level o ho
    subst ho
    simp only [json_stringify_into, make_obj, derefObj]
    simp
  · intro g
    rfl

/-- Witness for C8: a one-entry object rendered at fuel 2. -/
theorem claim_C8_object_serialization_witness :
    json_stringify_into (fun _ => "0") [⟨[some "a"], [make_nil]⟩] false 0 2 (make_obj 0) 0
      = "\x7b\"a\":null\x7d" := by
  have h := claim_C8_object_serialization.1 (fun _ => "0") [⟨[some "a"], [make_nil]⟩] 0 1 0
    ⟨[some "a"], [make_nil]⟩ rfl
  rw [h]
  rfl

/-- C7: every parse-error message is non-empty, and for every input string
    the two entry points agree with the core parser: on a parse error or on
    trailing content after a parsed value, the silent `json_parse` returns
    NIL while `json_parse_ex` allocates `{ok:false, value:Nil, error:m}` with
    the corresponding message; on a clean parse, `json_parse` returns the
    value and `json_parse_ex` allocates `{ok:true, value:v, error:""}`. -/
theorem claim_C7_parse_error_reporting :
    (∀ e : JsonErr, 0 < e.msg.length)
    ∧ (∀ (h : Heap) (s : String),
        match jp_run (2 * s.length + 4) .value h s.toList with
        | (h1, .error e) =>
            json_parse h (make_str s) = (h1, make_nil)
            ∧ json_parse_ex h (make_str s)
                = (h1 ++ [mk_result_obj false make_nil e.msg], make_obj h1.length)
        | (h1, .ok (v, rest)) =>
            if (jp_skip_ws rest).isEmpty then
              json_parse h (make_str s) = (h1, v)
              ∧ json_parse_ex h (make_str s)
                  = (h1 ++ [mk_result_obj true v ""], make_obj h1.length)
            else
              json_parse h (make_str s) = (h1, make_nil)
              ∧ json_parse_ex h (make_str s)
                  = (h1 ++ [mk_result_obj false make_nil JsonErr.extraContent.msg],
                      make_obj h1.length)) := by
  constructor
  · intro e
    cases e <;> decide
  · intro h s
    simp only [json_parse, json_parse_ex, make_str]
    rcases hr : jp_run (2 * s.length + 4) .value h s.toList with ⟨h1, r⟩
    cases r with
    | error e => simp [heap_alloc]
    | ok p =>
      obtain ⟨v, rest⟩ := p
      by_cases hb : (jp_skip_ws rest).isEmpty
      · simp [hb, heap_alloc]
      · simp [hb, heap_alloc]

/-- Witness for C7: the truncated input `"[1,"` — `json_parse` yields NIL,
    `json_parse_ex` the explicit error object with the unterminated-array
    message. -/
theorem claim_C7_parse_error_reporting_witness :
    json_parse [] (make_str "[1,") = ([⟨[some "0"], [make_num 1]⟩], make_nil)
    ∧ json_parse_ex [] (make_str "[1,")
        = ([⟨[some "0"], [make_num 1]⟩,
            mk_result_obj false make_nil "Array JSON não terminado."], make_obj 1) := by
  have h := claim_C7_parse_error_reporting.2 [] "[1,"
  exact h

theorem list_getD_append_left {α : Type} (l r : List α) (i : Nat) (d : α)
    (hi : i < l.length) : (l ++ r).getD i d = l.getD i d := by
  induction l generalizing i with
  | nil => simp at hi
  | cons x t ih =>
    cases i with
    | zero => simp [List.getD]
    | succ j =>
      simp only [List.cons_append, List.getD_cons_succ]
      exact ih j (by simpa using hi)

theorem list_getD_append_self {α : Type} (l : List α) (x : α) (d : α) :
    (l ++ [x]).getD l.length d = x := by
  induction l with
  | nil => simp [List.getD]
  | cons y t ih => simp [List.getD_cons_succ, ih]

theorem list_getD_set_self {α : Type} (l : List α) (i : Nat) (x d : α)
    (hi : i < l.length) : (l.set i x).getD i d = x := by
  induction l generalizing i with
  | nil => simp at hi
  | cons y t ih =>
    cases i with
    | zero => simp [List.getD]
    | succ j =>
      simp only [List.set_cons_succ, List.getD_cons_succ]
      exact ih j (by simpa using hi)

theorem list_getD_set_ne {α : Type} (l : List α) (i j : Nat) (x d : α)
    (hij : i ≠ j) : (l.set i x).getD j d = l.getD j d := by
  induction l generalizing i j with
  | nil => simp
  | cons y t ih =>
    cases i with
    | zero =>
      cases j with
      | zero => exact absurd rfl hij
      | succ k => simp [List.getD_cons_succ]
    | succ i' =>
      cases j with
      | zero => simp [List.getD]
      | succ k =>
        simp only [List.set_cons_succ, List.getD_cons_succ]
        exact ih i' k (by omega)

/-- The parser only allocates and updates: the heap never shrinks. -/
theorem jp_run_heap_length_mono :
    ∀ (fuel : Nat) (mode : JPMode) (h : Heap) (s : List Char),
      h.length ≤ (jp_run fuel mode h s).1.length := by
  intro fuel
  induction fuel with
  | zero => intro mode h s; simp [jp_run]
  | succ fuel ih =>
    intro mode h s
    cases mode with
    | value =>
      simp only [jp_run]
      rcases ht : jp_skip_ws s with _ | ⟨c, rest⟩
      · simp
      · dsimp only
        repeat' split
        all_goals
          first
          | (exact le_trans (by simp [heap_alloc]; try omega) (ih _ _ _))
          | (simp [heap_alloc]; try omega)
    | objLoop addr =>
      simp only [jp_run]
      split
      · simp
      · cases hps : jp_parse_string s with
        | error e => simp
        | ok p =>
          obtain ⟨key, s1⟩ := p
          dsimp only
          split
          · simp
          · rcases hv : jp_run fuel .value h (jp_consume ':' s1).2 with ⟨h1, r⟩
            have hm := ih .value h (jp_consume ':' s1).2
            rw [hv] at hm
            simp only at hm
            cases r with
            | error e => simpa using hm
            | ok p2 =>
              obtain ⟨val, s2⟩ := p2
              dsimp only
              split
              · simpa using hm
              · split
                · refine le_trans ?_ (ih _ _ _)
                  simpa using hm
                · simpa using hm
    | arrLoop addr len =>
      simp only [jp_run]
      split
      · simp
      · rcases hv : jp_run fuel .value h s with ⟨h1, r⟩
        have hm := ih .value h s
        rw [hv] at hm
        simp only at hm
        cases r with
        | error e => simpa using hm
        | ok p =>
          obtain ⟨val, s1⟩ := p
          dsimp only
          split
          · simpa using hm
          · split
            · refine le_trans ?_ (ih _ _ _)
              simpa using hm
            · simpa using hm

/-- Frame property: a parser step leaves every pre-existing heap cell
    unchanged, except (in a loop mode) the object it is itself building. -/
theorem jp_run_frame :
    ∀ (fuel : Nat) (mode : JPMode) (h : Heap) (s : List Char) (a : Nat),
      a < h.length →
      (match mode with
       | .value => True
       | .objLoop addr => a ≠ addr
       | .arrLoop addr _ => a ≠ addr) →
      (jp_run fuel mode h s).1.getD a ⟨[], []⟩ = h.getD a ⟨[], []⟩ := by
  intro fuel
  induction fuel with
  | zero => intro mode h s a ha _; simp [jp_run]
  | succ fuel ih =>
    intro mode h s a ha hm
    cases mode with
    | value =>
      simp only [jp_run]
      rcases ht : jp_skip_ws s with _ | ⟨c, rest⟩
      · rfl
      · dsimp only
        repeat' split
        all_goals
          first
          | rfl
          | (exact list_getD_append_left h [⟨[], []⟩] a ⟨[], []⟩ ha)
          | (exact (ih _ _ _ a (by simp [heap_alloc]; omega)
                (by simp [heap_alloc]; omega)).trans
              (list_getD_append_left h [⟨[], []⟩] a ⟨[], []⟩ ha))
    | objLoop addr =>
      have haddr : a ≠ addr := hm
      simp only [jp_run]
      split
      · rfl
      · cases hps : jp_parse_string s with
        | error e => rfl
        | ok p =>
          obtain ⟨key, s1⟩ := p
          dsimp only
          split
          · rfl
          · rcases hv : jp_run fuel .value h (jp_consume ':' s1).2 with ⟨h1, r⟩
            have hframe := ih .value h (jp_consume ':' s1).2 a ha trivial
            rw [hv] at hframe
            simp only at hframe
            have hlen := jp_run_heap_length_mono fuel .value h (jp_consume ':' s1).2
            rw [hv] at hlen
            simp only at hlen
            cases r with
            | error e => simpa using hframe
            | ok p2 =>
              obtain ⟨val, s2⟩ := p2
              dsimp only
              have hset : ∀ o' : SnaskObject,
                  (h1.set addr o').getD a ⟨[], []⟩ = h.getD a ⟨[], []⟩ := by
                intro o'
                rw [list_getD_set_ne _ _ _ _ _ (Ne.symm haddr)]
                exact hframe
              split
              · exact hset _
              · split
                · refine (ih (.objLoop addr) _ _ a ?_ ?_).trans (hset _)
                  · simp only [List.length_set]
                    omega
                  · exact haddr
                · exact hset _
    | arrLoop addr len =>
      have haddr : a ≠ addr := hm
      simp only [jp_run]
      split
      · rfl
      · rcases hv : jp_run fuel .value h s with ⟨h1, r⟩
        have hframe := ih .value h s a ha trivial
        rw [hv] at hframe
        simp only at hframe
        have hlen := jp_run_heap_length_mono fuel .value h s
        rw [hv] at hlen
        simp only at hlen
        cases r with
        | error e => simpa using hframe
        | ok p2 =>
          obtain ⟨val, s1⟩ := p2
          dsimp only
          have hset : ∀ o' : SnaskObject,
              (h1.set addr o').getD a ⟨[], []⟩ = h.getD a ⟨[], []⟩ := by
            intro o'
            rw [list_getD_set_ne _ _ _ _ _ (Ne.symm haddr)]
            exact hframe
          split
          · exact hset _
          · split
            · refine (ih (.arrLoop addr (len + 1)) _ _ a ?_ ?_).trans (hset _)
              · simp only [List.length_set]
                omega
              · exact haddr
            · exact hset _

/-- The array-element loop keeps the array object index-keyed: if the object
    under construction has names `"0"… "len-1"` for its `len` values, then on
    success the finished object satisfies `ArrInv` and the returned value is
    the OBJ handle of that object. -/
theorem jp_arr_loop_inv :
    ∀ (fuel : Nat) (h : Heap) (addr len : Nat) (s : List Char)
      (h' : Heap) (v : SnaskValue) (rest : List Char),
      addr < h.length →
      (h.getD addr ⟨[], []⟩).names = (List.range len).map (fun i => some (Nat.repr i)) →
      (h.getD addr ⟨[], []⟩).values.length = len →
      jp_run fuel (.arrLoop addr len) h s = (h', .ok (v, rest)) →
      v = make_obj addr ∧ ArrInv (h'.getD addr ⟨[], []⟩) := by
  intro fuel
  induction fuel with
  | zero =>
    intro h addr len s h' v rest _ _ _ hrun
    simp [jp_run] at hrun
  | succ fuel ih =>
    intro h addr len s h' v rest ha hnames hlen hrun
    simp only [jp_run] at hrun
    by_cases hs : s.isEmpty
    · rw [if_pos hs] at hrun
      simp at hrun
    · rw [if_neg hs] at hrun
      rcases hv : jp_run fuel .value h s with ⟨h1, r⟩
      rw [hv] at hrun
      cases r with
      | error e => simp at hrun
      | ok p =>
        obtain ⟨val, s1⟩ := p
        dsimp only at hrun
        have hframe := jp_run_frame fuel .value h s addr ha trivial
        rw [hv] at hframe
        simp only at hframe
        have hmono := jp_run_heap_length_mono fuel .value h s
        rw [hv] at hmono
        simp only at hmono
        have ho1names : (h1.getD addr ⟨[], []⟩).names
            = (List.range len).map (fun i => some (Nat.repr i)) := by
          rw [hframe]; exact hnames
        have ho1len : (h1.getD addr ⟨[], []⟩).values.length = len := by
          rw [hframe]; exact hlen
        by_cases hc2 : (jp_consume ']' (jp_skip_ws s1)).1 = true
        · rw [if_pos hc2] at hrun
          rw [Prod.mk.injEq] at hrun
          obtain ⟨hh', hok⟩ := hrun
          rw [Except.ok.injEq, Prod.mk.injEq] at hok
          obtain ⟨hveq, hrest⟩ := hok
          subst hh'
          refine ⟨hveq.symm, ?_⟩
          rw [list_getD_set_self _ _ _ _ (by omega)]
          simp only [ArrInv, List.length_append, ho1len, List.length_cons,
            List.length_nil, List.range_succ, List.map_append, ho1names]
          simp
        · rw [if_neg hc2] at hrun
          by_cases hc3 : (jp_consume ',' (jp_consume ']' (jp_skip_ws s1)).2).1 = true
          · rw [if_pos hc3] at hrun
            refine ih _ addr (len + 1) _ h' v rest ?_ ?_ ?_ hrun
            · simp only [List.length_set]
              omega
            · rw [list_getD_set_self _ _ _ _ (by omega)]
              simp only [List.range_succ, List.map_append, ho1names]
              simp
            · rw [list_getD_set_self _ _ _ _ (by omega)]
              simp only [List.length_append, List.length_cons, List.length_nil, ho1len]
          · rw [if_neg hc3] at hrun
            simp at hrun

theorem map_repr_range_append (n m : Nat) :
    (List.range (n + m)).map (fun i => some (Nat.repr i))
      = (List.range n).map (fun i => some (Nat.repr i))
        ++ (List.range' n m).map (fun i => some (Nat.repr i)) := by
  induction m with
  | zero => simp
  | succ m ih =>
    have h1 : n + (m + 1) = (n + m) + 1 := rfl
    rw [h1, List.range_succ, List.map_append, ih, List.append_assoc,
      List.range'_1_concat, ← List.map_append]

/-- C10: every array-building operation preserves the index-keyed invariant
    `ArrInv` (each stored key is the decimal string of its position):
    a fresh `sjson_new_array` object satisfies it; `sjson_arr_push` stores the
    value under the key equal to the old `count`, increments `count` by one,
    and preserves the invariant; `sjson_arr_set` preserves it both in-range
    and when gap-filling; and a successfully parsed JSON array satisfies it. -/
theorem claim_C10_array_key_invariant :
    (∀ h : Heap, ArrInv ((sjson_new_array h).1.getD h.length ⟨[], []⟩))
    ∧ (∀ (h : Heap) (a : Nat) (o : SnaskObject) (v : SnaskValue),
        a < h.length → h.getD a ⟨[], []⟩ = o → ArrInv o →
        sjson_arr_push h (make_obj a) v
          = (h.set a ⟨o.names ++ [some (Nat.repr o.count)], o.values ++ [v]⟩, make_bool true)
        ∧ ArrInv ((sjson_arr_push h (make_obj a) v).1.getD a ⟨[], []⟩)
        ∧ ((sjson_arr_push h (make_obj a) v).1.getD a ⟨[], []⟩).count = o.count + 1
        ∧ ((sjson_arr_push h (make_obj a) v).1.getD a ⟨[], []⟩).values.getD o.count make_nil
            = v)
    ∧ (∀ (h : Heap) (a : Nat) (idxv v : SnaskValue),
        a < h.length → ArrInv (h.getD a ⟨[], []⟩) →
        ArrInv ((sjson_arr_set h (make_obj a) idxv v).1.getD a ⟨[], []⟩))
    ∧ (∀ (fuel : Nat) (h : Heap) (s : List Char) (h' : Heap) (v : SnaskValue)
        (rest : List Char),
        (jp_skip_ws s).head? = some '[' →
        jp_run fuel .value h s = (h', .ok (v, rest)) →
        ∃ a, v = make_obj a ∧ ArrInv (h'.getD a ⟨[], []⟩)) := by
  refine ⟨?_, ?_, ?_, ?_⟩
  · intro h
    have := list_getD_append_self h (⟨[], []⟩ : SnaskObject) ⟨[], []⟩
    simp only [sjson_new_array, sjson_new_empty_object_value, heap_alloc]
    rw [this]
    simp [ArrInv]
  · intro h a o v ha ho hinv
    have hn : o.names = (List.range o.values.length).map (fun i => some (Nat.repr i)) := hinv
    have hpush : sjson_arr_push h (make_obj a) v
        = (h.set a ⟨o.names ++ [some (Nat.repr o.count)], o.values ++ [v]⟩, make_bool true) := by
      unfold sjson_arr_push
      rw [if_neg (by simp [make_obj])]
      dsimp only [make_obj]
      rw [ho]
    refine ⟨hpush, ?_, ?_, ?_⟩
    all_goals rw [hpush]
    all_goals dsimp only
    all_goals rw [list_getD_set_self _ _ _ _ ha]
    · have hl : (o.values ++ [v]).length = o.values.length + 1 := by simp
      show o.names ++ [some (Nat.repr o.count)]
          = (List.range (o.values ++ [v]).length).map (fun i => some (Nat.repr i))
      rw [hl, List.range_succ, List.map_append, hn]
      simp [SnaskObject.count]
    · simp [SnaskObject.count]
    · exact list_getD_append_self o.values v make_nil
  · intro h a idxv v ha hinv
    have hn : (h.getD a ⟨[], []⟩).names
        = (List.range (h.getD a ⟨[], []⟩).values.length).map (fun i => some (Nat.repr i)) :=
      hinv
    unfold sjson_arr_set
    by_cases hguard : (make_obj a).tag ≠ SnaskTag.obj ∨ idxv.tag ≠ SnaskTag.num
        ∨ (make_obj a).ptr = SPtr.null
    · rw [if_pos hguard]
      exact hinv
    · rw [if_neg hguard]
      dsimp only [make_obj]
      by_cases h0 : qtrunc idxv.num < 0
      · rw [if_pos h0]
        exact hinv
      · rw [if_neg h0]
        by_cases hin : qtrunc idxv.num < (((h.getD a ⟨[], []⟩).count : Nat) : Int)
        · rw [if_pos hin]
          dsimp only
          rw [list_getD_set_self _ _ _ _ ha]
          show (h.getD a ⟨[], []⟩).names
              = (List.range ((h.getD a ⟨[], []⟩).values.set (qtrunc idxv.num).toNat v).length).map
                  (fun i => some (Nat.repr i))
          rw [List.length_set]
          exact hn
        · rw [if_neg hin]
          dsimp only
          rw [list_getD_set_self _ _ _ _ ha]
          show (h.getD a ⟨[], []⟩).names
                ++ (List.range' (h.getD a ⟨[], []⟩).count
                    ((qtrunc idxv.num).toNat + 1 - (h.getD a ⟨[], []⟩).count)).map
                    (fun i => some (Nat.repr i))
              = (List.range (((h.getD a ⟨[], []⟩).values
                    ++ List.replicate ((qtrunc idxv.num).toNat + 1 - (h.getD a ⟨[], []⟩).count)
                      make_nil).set (qtrunc idxv.num).toNat v).length).map
                  (fun i => some (Nat.repr i))
          rw [List.length_set, List.length_append, List.length_replicate,
            map_repr_range_append, hn]
          rfl
  · intro fuel h s h' v rest hhead hrun
    cases fuel with
    | zero => simp [jp_run] at hrun
    | succ fuel =>
      simp only [jp_run] at hrun
      rcases ht : jp_skip_ws s with _ | ⟨c, t'⟩
      · rw [ht] at hhead
        simp at hhead
      · rw [ht] at hhead hrun
        have hc : c = '[' := by simpa using hhead
        subst hc
        dsimp only at hrun
        rw [if_neg (by decide), if_neg (by decide), if_pos rfl] at hrun
        dsimp only [heap_alloc] at hrun
        by_cases hc2 : (jp_consume ']' (jp_skip_ws (jp_consume '[' ('[' :: t')).2)).1 = true
        · rw [if_pos hc2] at hrun
          rw [Prod.mk.injEq] at hrun
          obtain ⟨hh', hok⟩ := hrun
          rw [Except.ok.injEq, Prod.mk.injEq] at hok
          refine ⟨h.length, hok.1.symm, ?_⟩
          rw [← hh']
          rw [list_getD_append_self]
          simp [ArrInv]
        · rw [if_neg hc2] at hrun
          have := jp_arr_loop_inv fuel (h ++ [⟨[], []⟩]) h.length 0 _ h' v rest
            (by simp) (by rw [list_getD_append_self]; simp) (by rw [list_getD_append_self]; rfl)
            hrun
          exact ⟨h.length, this.1, this.2⟩

/-- Witness for C10: pushing onto the one-element array `["0" ↦ 7]` stores the
    value under key `"1"` and bumps the count to 2. -/
theorem claim_C10_array_key_invariant_witness :
    sjson_arr_push [(⟨[some "0"], [make_num 7]⟩ : SnaskObject)] (make_obj 0) (make_str "y")
      = ([⟨[some "0", some "1"], [make_num 7, make_str "y"]⟩], make_bool true) := by
  have h := claim_C10_array_key_invariant.2.1 [(⟨[some "0"], [make_num 7]⟩ : SnaskObject)] 0
    ⟨[some "0"], [make_num 7]⟩ (make_str "y") (by decide) rfl (by unfold ArrInv; decide)
  rw [h.1]
  decide

theorem obj_scan_mem :
    ∀ (ns : List (Option String)) (vs : List SnaskValue) (key : String) (v : SnaskValue),
      obj_scan ns vs key = some v → some key ∈ ns := by
  intro ns
  induction ns with
  | nil => intro vs key v hscan; simp [obj_scan] at hscan
  | cons n nt ih =>
    intro vs key v hscan
    cases vs with
    | nil => simp [obj_scan] at hscan
    | cons v0 vt =>
      simp only [obj_scan] at hscan
      by_cases hn : n = some key
      · exact hn ▸ List.mem_cons_self _ _
      · rw [if_neg hn] at hscan
        exact List.mem_cons_of_mem _ (ih vt key v hscan)

/-- C5: request routing.  (1) An unparseable request line yields a 400
    `Bad Request` response; (2) when neither the method-qualified key
    `"METHOD /path"` nor the bare `"/path"` key is present, the response is
    404 `Not Found`; (3) a method-qualified hit with a plain String value
    yields 200, `text/plain`, the string verbatim as body — regardless of the
    bare key; (4) the bare key is consulted exactly when the method-qualified
    key is absent; (5) route lookup is an exact string match — a found key
    is literally present in the route table (no wildcard or segment
    matching). -/
theorem claim_C5_routing :
    ∀ (g : ℚ → String) (st : SymTab) (h : Heap) (ra : Nat) (req : String),
      (blaze_parse_path req.toList = none →
        blaze_handle_request g st h ra req
          = (h, ⟨400, "text/plain; charset=utf-8", "", "Bad Request"⟩))
      ∧ (∀ m pk, blaze_find_method req.toList = some m →
          blaze_parse_path req.toList = some pk →
          blaze_route_lookup (h.getD ra ⟨[], []⟩) (m ++ " " ++ pk) = none →
          blaze_route_lookup (h.getD ra ⟨[], []⟩) pk = none →
          blaze_handle_request g st h ra req
            = (h, ⟨404, "text/plain; charset=utf-8", "", "Not Found"⟩))
      ∧ (∀ m pk s, blaze_find_method req.toList = some m →
          blaze_parse_path req.toList = some pk →
          blaze_route_lookup (h.getD ra ⟨[], []⟩) (m ++ " " ++ pk) = some (make_str s) →
          blaze_handle_request g st h ra req
            = (h, ⟨200, "text/plain; charset=utf-8", "", s⟩))
      ∧ (∀ m pk s, blaze_find_method req.toList = some m →
          blaze_parse_path req.toList = some pk →
          blaze_route_lookup (h.getD ra ⟨[], []⟩) (m ++ " " ++ pk) = none →
          blaze_route_lookup (h.getD ra ⟨[], []⟩) pk = some (make_str s) →
          blaze_handle_request g st h ra req
            = (h, ⟨200, "text/plain; charset=utf-8", "", s⟩))
      ∧ (∀ key v, blaze_route_lookup (h.getD ra ⟨[], []⟩) key = some v →
          some key ∈ (h.getD ra ⟨[], []⟩).names) := by
  intro g st h ra req
  refine ⟨?_, ?_, ?_, ?_, ?_⟩
  · intro hparse
    simp only [blaze_handle_request, hparse]
    rfl
  · intro m pk hm hpk hq hb
    simp only [blaze_handle_request, hpk, hm, hq, hb]
    rfl
  · intro m pk s hm hpk hq
    simp only [blaze_handle_request, hpk, hm, hq]
    simp [make_str, blaze_send_response]
  · intro m pk s hm hpk hq hb
    simp only [blaze_handle_request, hpk, hm, hq, hb]
    simp [make_str, blaze_send_response]
  · intro key v hfind
    exact obj_scan_mem _ _ _ _ hfind

/-- Witness for C5: the route table `{"GET /ping": "pong"}` answers
    `GET /ping` with 200, `text/plain` and the body `pong` verbatim. -/
theorem claim_C5_routing_witness :
    blaze_handle_request (fun _ => "") (fun _ => none)
      [⟨[some "GET /ping"], [make_str "pong"]⟩] 0 "GET /ping HTTP/1.1\r\nHost: x\r\n\r\n"
      = ([⟨[some "GET /ping"], [make_str "pong"]⟩],
          ⟨200, "text/plain; charset=utf-8", "", "pong"⟩) := by
  exact (claim_C5_routing (fun _ => "") (fun _ => none)
    [⟨[some "GET /ping"], [make_str "pong"]⟩] 0
    "GET /ping HTTP/1.1\r\nHost: x\r\n\r\n").2.2.1 "GET" "/ping" "pong"
    (by decide) (by decide) (by decide)

set_option maxRecDepth 10000 in
/-- C6 counterexample: the claim ranges over *every* handler name, but
    `snprintf(sym, sizeof sym, "f_%s", name)` writes into a 512-byte buffer
    and truncates.  For the 510-character name `aa…a`, the symbol looked up
    is `f_` followed by only 509 `a`s; with a symbol table in which
    `f_<name>` itself is absent but that truncated symbol is bound, dispatch
    returns the bound handler's value, not NIL. -/
theorem claim_C6_dispatch_counterexample :
    ((fun sym => if sym = "f_" ++ String.mk (List.replicate 509 'a')
        then some (fun _ => make_num 42) else none : SymTab)
      ("f_" ++ String.mk (List.replicate 510 'a')) = none)
    ∧ blaze_call_snask_handler
        (fun sym => if sym = "f_" ++ String.mk (List.replicate 509 'a')
          then some (fun _ => make_num 42) else none)
        (String.mk (List.replicate 510 'a')) "GET" "/" "" "" ""
      = make_num 42 := by
  constructor
  · show (if ("f_" ++ String.mk (List.replicate 510 'a'))
        = ("f_" ++ String.mk (List.replicate 509 'a'))
        then some (fun _ => make_num 42) else none) = none
    rw [if_neg (by decide)]
  · have hsym : snprintf_trunc 512 ("f_" ++ String.mk (List.replicate 510 'a'))
        = "f_" ++ String.mk (List.replicate 509 'a') := by decide
    simp only [blaze_call_snask_handler, hsym]
    simp

set_option maxRecDepth 10000 in
/-- C6 (amended): for every handler name short enough that `f_<name>` fits
    the 512-byte symbol buffer untruncated (name length ≤ 509), both the
    server's handler invocation and the thread-spawned dispatch look up
    exactly the symbol `f_<name>` and, when it is absent, return NIL — no
    call happens and nothing aborts. -/
theorem claim_C6_dispatch_absent_nil :
    ∀ (st : SymTab) (name method path query body cookie arg : String),
      name.length ≤ 509 →
      st ("f_" ++ name) = none →
      blaze_call_snask_handler st name method path query body cookie = make_nil
      ∧ snask_thread_entry st name arg = make_nil := by
  intro st name m p q b c arg hlen habs
  have hlen2 : ("f_" ++ name).toList.length ≤ 511 := by
    show ("f_" ++ name).data.length ≤ 511
    simp only [String.data_append, List.length_append, List.length_cons, List.length_nil]
    have h3 : name.data.length = name.length := rfl
    omega
  have hsym : snprintf_trunc 512 ("f_" ++ name) = "f_" ++ name := by
    unfold snprintf_trunc
    rw [List.take_of_length_le hlen2]
    rfl
  simp only [blaze_call_snask_handler, snask_thread_entry]
  rw [hsym, habs]
  exact ⟨rfl, rfl⟩

/-- Witness for the amended C6: with an empty symbol table, dispatching the
    handler name `foo` returns NIL from both entry points. -/
theorem claim_C6_dispatch_absent_nil_witness :
    blaze_call_snask_handler (fun _ => none) "foo" "GET" "/" "" "" "" = make_nil
    ∧ snask_thread_entry (fun _ => none) "foo" "x" = make_nil :=
  claim_C6_dispatch_absent_nil (fun _ => none) "foo" "GET" "/" "" "" "" "x"
    (by decide) rfl
